import Mathlib

/-!
Verification of the interface orchestration core of a userspace WireGuard
implementation (`src/interface/mod.rs`), as a shallow embedding in Lean.

The embedding follows the source: the routing `State` with its four lookup
structures, the `VecUtunCodec` virtual-device framing, the control-channel
command handler (the closure at lines 123-144 of `start`), and the
update-event consumer (the closure at lines 159-202 of `start`).
Rust `HashMap` and `IpLookupTable` maps are modelled as association lists
whose `insert` replaces any existing entry for the same key, matching the
overwrite semantics of `HashMap::insert` and of `IpLookupTable::insert`
at an exact (address, masklen) match.  Panics (`expect`, `unwrap`,
`unimplemented!`) are modelled as the `Except.error` branch carrying the
panic message and the state at the moment of the panic.
-/

namespace WireguardRs

/-- Bytes are modelled as natural numbers; byte strings as lists. -/
abbrev Bytes := List Nat

/-- An IP address, as in `std::net::IpAddr`: either family, address value
abstracted to a natural number. -/
inductive IpAddr where
  | V4 (addr : Nat)
  | V6 (addr : Nat)
deriving DecidableEq, Repr

/-- Modelled from the spec: a UDP endpoint (`SocketAddr`) is opaque to the
core; it is only stored and passed to the send path. -/
abbrev Endpoint := Nat

/-- Modelled from the spec: the peer information carried by an `UpdatePeer`
control event (`config::PeerInfo`, whose definition is outside `src/`):
remote static public key, optional pre-shared key, optional endpoint and
the list of allowed-IP prefixes (address, mask length). The fields are
exactly those the event consumer in `src/interface/mod.rs` reads:
`pub_key`, `psk`, `endpoint`, `allowed_ips`. -/
structure PeerInfo where
  pub_key : Bytes
  psk : Option Bytes
  endpoint : Option Endpoint
  allowed_ips : List (IpAddr × Nat)
deriving DecidableEq, Repr

/-- Modelled from the spec: `types::InterfaceInfo` (outside `src/`) holds
the process-wide identity: optional local private key and optional UDP
listen port. -/
structure InterfaceInfo where
  private_key : Option Bytes := none
  listen_port : Option Nat := none
deriving DecidableEq, Repr

/-- Modelled from the spec: `protocol::Peer` (outside `src/`) after
`Peer::new(info)` and `set_next_session(noise)`: it carries the peer info,
the handshake-initiation payload produced by the session negotiator
(`get_handshake_packet`) and the locally-assigned session index
(`our_next_index`). -/
structure Peer where
  info : PeerInfo
  handshake_packet : Bytes
  index : Nat
deriving DecidableEq, Repr

/-- Modelled from the spec: the session negotiator (the `snow` Noise
engine) is an opaque external collaborator: given the local private key,
the pre-shared key and the remote public key it produces a
handshake-initiation payload and a locally-unique session index.  The
event consumer only calls it and stores the result, so it is abstracted
as a function parameter. -/
structure Negotiator where
  initiate : Bytes → Bytes → Bytes → Bytes × Nat

/-- Hex digit characters, lowercase as produced by `hex::encode`. -/
def hexDigit (n : Nat) : Char :=
  if n < 10 then Char.ofNat (48 + n) else Char.ofNat (87 + n)

/-- Hex encoding of one byte: two lowercase hex digits. -/
def hexByte (b : Nat) : String :=
  String.mk [hexDigit (b / 16 % 16), hexDigit (b % 16)]

/-- Hex encoding of a byte string, as `hex::encode`. -/
def hexEncode (bs : Bytes) : String :=
  String.join (bs.map hexByte)

/-- Modelled from the spec: `Peer::to_config_string` (outside `src/`)
serializes one configuration block per peer: public key, endpoint and
allowed IPs as newline-terminated key=value lines. -/
def Peer.to_config_string (p : Peer) : String :=
  let epLine := match p.info.endpoint with
    | some ep => "endpoint=" ++ toString ep ++ "\n"
    | none => ""
  let ipLines := String.join (p.info.allowed_ips.map (fun am =>
    "allowed_ip=" ++ toString (repr am.1) ++ "/" ++ toString am.2 ++ "\n"))
  "public_key=" ++ hexEncode p.info.pub_key ++ "\n" ++ epLine ++ ipLines

/-! ### Association-list maps

`HashMap<K, V>` (`pubkey_map`, `index_map`) and `IpLookupTable`
(`ip4_map`, `ip6_map`, keyed by the (address, masklen) pair) are modelled
as association lists.  `alInsert` replaces any existing binding of the
key, as `HashMap::insert` does. -/

/-- The keys bound in an association list. -/
def alKeys {α β : Type} (m : List (α × β)) : List α :=
  m.map Prod.fst

/-- Insert replacing any existing binding of the key, as
`HashMap::insert`. -/
def alInsert {α β : Type} [DecidableEq α] (k : α) (v : β) (m : List (α × β)) :
    List (α × β) :=
  (k, v) :: m.filter (fun kv => kv.1 ≠ k)

/-- Lookup of a key in an association list. -/
def alLookup {α β : Type} [DecidableEq α] (k : α) (m : List (α × β)) :
    Option β :=
  (m.find? (fun kv => kv.1 = k)).map Prod.snd

theorem alKeys_insert_self {α β : Type} [DecidableEq α] (k : α) (v : β)
    (m : List (α × β)) : k ∈ alKeys (alInsert k v m) := by
  simp [alKeys, alInsert]

theorem alKeys_insert_mono {α β : Type} [DecidableEq α] {k' : α} (k : α) (v : β)
    {m : List (α × β)} (h : k' ∈ alKeys m) : k' ∈ alKeys (alInsert k v m) := by
  rcases List.mem_map.mp h with ⟨kv, hmem, hfst⟩
  by_cases hk : k' = k
  · simp [alKeys, alInsert, hk]
  · refine List.mem_map.mpr ⟨kv, ?_, hfst⟩
    simp only [alInsert, List.mem_cons, List.mem_filter]
    exact Or.inr ⟨hmem, by simp [hfst, hk]⟩

theorem alLookup_insert_self {α β : Type} [DecidableEq α] (k : α) (v : β)
    (m : List (α × β)) : alLookup k (alInsert k v m) = some v := by
  simp [alLookup, alInsert, List.find?]

/-! ### The routing state (`State`, `src/interface/mod.rs` lines 41-47) -/

/-- The shared routing state: public-key map, session-index map, the two
address-family prefix tables, and the interface identity. -/
structure State where
  pubkey_map : List (Bytes × Peer)
  index_map : List (Nat × Peer)
  ip4_map : List ((Nat × Nat) × Peer)
  ip6_map : List ((Nat × Nat) × Peer)
  interface_info : InterfaceInfo
deriving DecidableEq, Repr

/-- The empty state built by `Interface::new` (lines 76-88). -/
def State.initial : State :=
  { pubkey_map := [], index_map := [], ip4_map := [], ip6_map := [],
    interface_info := {} }

/-! ### Virtual-device codec (`VecUtunCodec`, lines 54-73)

`decode` reads `buf[3]` (the family marker byte) and returns
`buf[4..].to_vec()`; both index operations panic when the buffer is
shorter than 4 bytes, modelled by `none`.  `encode` extends the output
buffer with the fixed marker `[0, 0, 0, 2]` and then appends the
payload. -/

/-- Decoding a utun frame: strip the first 4 bytes; a buffer shorter
than 4 bytes panics (out-of-bounds index), modelled as `none`. -/
def vecUtunDecode (buf : Bytes) : Option Bytes :=
  if 4 ≤ buf.length then some (buf.drop 4) else none

/-- The fixed 4-byte address-family marker prepended on encode
(`[0u8, 0, 0, 2]`). -/
def afMarker : Bytes := [0, 0, 0, 2]

/-- Encoding for the utun stream: extend `buf` with the fixed marker,
then append the payload. -/
def vecUtunEncode (msg : Bytes) (buf : Bytes) : Bytes :=
  (buf ++ afMarker) ++ msg

/-! ### Update events and their processing (lines 155-203)

The `config_fut` closure processes `UpdateEvent`s one at a time and
mutates the shared state.  Processing an `UpdatePeer` event is embedded
as a sequence of primitive operations applied in source order (the
`for` loop over `allowed_ips` at lines 186-191, then the two map inserts
at lines 193-194, then the spawned UDP send at line 196), so the
intermediate states the reactor can observe are explicit. -/

/-- Modelled from the spec: the update-event kinds carried on the internal
channel (`config::UpdateEvent`, outside `src/`).  The consumer in
`src/interface/mod.rs` matches `PrivateKey`, `ListenPort` and
`UpdatePeer` and has a catch-all arm for every other kind; `Other` stands
for those unrecognized kinds. -/
inductive UpdateEvent where
  | PrivateKey (key : Bytes)
  | ListenPort (port : Nat)
  | UpdatePeer (info : PeerInfo)
  | Other
deriving DecidableEq

/-- A primitive state-mutating or wire-visible operation of the
`UpdatePeer` branch. -/
inductive Op where
  | insertIp (addr : IpAddr) (mask : Nat) (peer : Peer)
  | insertIndex (idx : Nat) (peer : Peer)
  | insertPubkey (key : Bytes) (peer : Peer)
  | sendUdp (ep : Endpoint) (packet : Bytes)
deriving DecidableEq

/-- Whether an operation is the UDP send. -/
def Op.isSend : Op → Bool
  | .sendUdp _ _ => true
  | _ => false

/-- The state extended with the datagrams handed to the UDP send path
(the wire). -/
structure ExecState where
  state : State
  wire : List (Endpoint × Bytes)
deriving DecidableEq

/-- Applying one primitive operation, as the corresponding source line
does: `insertIp` matches the address family (lines 187-190), the map
inserts replace any existing binding, and `sendUdp` appends the datagram
to the wire. -/
def applyOp (es : ExecState) : Op → ExecState
  | .insertIp (.V4 a) m p =>
      { es with state := { es.state with
          ip4_map := alInsert (a, m) p es.state.ip4_map } }
  | .insertIp (.V6 a) m p =>
      { es with state := { es.state with
          ip6_map := alInsert (a, m) p es.state.ip6_map } }
  | .insertIndex i p =>
      { es with state := { es.state with
          index_map := alInsert i p es.state.index_map } }
  | .insertPubkey k p =>
      { es with state := { es.state with
          pubkey_map := alInsert k p es.state.pubkey_map } }
  | .sendUdp ep pkt => { es with wire := es.wire ++ [(ep, pkt)] }

/-- Running a sequence of operations. -/
def runOps (es : ExecState) (ops : List Op) : ExecState :=
  ops.foldl applyOp es

/-- The states strictly after each step of a run. -/
def statesAfter (es : ExecState) : List Op → List ExecState
  | [] => []
  | op :: rest => applyOp es op :: statesAfter (applyOp es op) rest

/-- All states of a run, the starting one included. -/
def reachableStates (es : ExecState) (ops : List Op) : List ExecState :=
  es :: statesAfter es ops

/-- Building the initiator peer (lines 172-184): the negotiator is
invoked with the local private key, the remote public key and the
pre-shared key; the peer then holds the handshake packet and the
session index. -/
def buildInitiatorPeer (neg : Negotiator) (sk psk : Bytes) (info : PeerInfo) :
    Peer :=
  let r := neg.initiate sk psk info.pub_key
  { info := info, handshake_packet := r.1, index := r.2 }

/-- The per-prefix inserts of the `for` loop over `allowed_ips`
(lines 186-191), in list order. -/
def ipOps (peer : Peer) : List Op :=
  peer.info.allowed_ips.map (fun am => Op.insertIp am.1 am.2 peer)

/-- The state-mutating operations of the `UpdatePeer` branch, in source
order: one `insertIp` per allowed-IP prefix (lines 186-191), then the
session-index insert (line 193), then the public-key insert
(line 194). -/
def insertOps (peer : Peer) : List Op :=
  ipOps peer ++
    [Op.insertIndex peer.index peer, Op.insertPubkey peer.info.pub_key peer]

/-- The full operation sequence of a completing `UpdatePeer` branch: the
inserts followed by the spawned handshake-initiation send (line 196). -/
def updatePeerOps (peer : Peer) (ep : Endpoint) : List Op :=
  insertOps peer ++ [Op.sendUdp ep peer.handshake_packet]

/-- A panic (Rust `expect`/`unwrap`/`unimplemented!`): the message and
the state at the moment of the panic. -/
structure PanicState where
  msg : String
  state : State
deriving DecidableEq

/-- Processing one update event (the `match event` at lines 161-199).
`PrivateKey` and `ListenPort` store the value.  `UpdatePeer` first
unwraps the local private key (`expect("no private key!")`, line 173) and
the pre-shared key (`expect("no psk!")`, line 176), builds the initiator
peer, performs the index inserts, and finally unwraps the endpoint
(line 196) to spawn the handshake-initiation send; each unwrap of a
missing value panics.  Every other event kind hits the catch-all
`unimplemented!()` at line 198. -/
def processEvent (neg : Negotiator) (s : State) :
    UpdateEvent → Except PanicState (State × List (Endpoint × Bytes))
  | .PrivateKey key =>
      .ok ({ s with interface_info :=
        { s.interface_info with private_key := some key } }, [])
  | .ListenPort port =>
      .ok ({ s with interface_info :=
        { s.interface_info with listen_port := some port } }, [])
  | .UpdatePeer info =>
      match s.interface_info.private_key with
      | none => .error ⟨"no private key!", s⟩
      | some sk =>
        match info.psk with
        | none => .error ⟨"no psk!", s⟩
        | some psk =>
          let peer := buildInitiatorPeer neg sk psk info
          let mid := runOps ⟨s, []⟩ (insertOps peer)
          match info.endpoint with
          | none =>
              .error ⟨"called Option::unwrap on a None value", mid.state⟩
          | some ep =>
              let fin := runOps mid [Op.sendUdp ep peer.handshake_packet]
              .ok (fin.state, fin.wire)
  | .Other => .error ⟨"not implemented", s⟩

/-! ### Control-channel command handling (lines 123-144)

Each framed command is handled with the state borrowed; `Set` forwards
its items one at a time onto the bounded update-event channel and
replies with the fixed trailer, `Get` serializes the state. -/

/-- Modelled from the spec: the two control-channel command kinds
(`config::Command`, outside `src/`), as matched by the handler in
`src/interface/mod.rs`. -/
inductive Command where
  | Set (version : Nat) (items : List UpdateEvent)
  | Get (version : Nat)

/-- Enqueuing the update items one at a time
(`send_all(stream::iter_ok(items))`, line 127). -/
def enqueueAll (queue : List UpdateEvent) (items : List UpdateEvent) :
    List UpdateEvent :=
  items.foldl (fun q i => q.concat i) queue

/-- The fixed success trailer returned for every `Set` (line 128). -/
def setReply : String := "errno=0\nerrno=0\n\n"

/-- The `Get` response (lines 130-142): a string buffer receives the
`private_key=` line when the key is present, then one configuration
block per peer of the pubkey map, then the `errno=0` trailer and the
terminating blank line. -/
def getResponse (s : State) : String :=
  let buf := ""
  let buf := match s.interface_info.private_key with
    | some k => buf ++ ("private_key=" ++ hexEncode k ++ "\n")
    | none => buf
  let buf := s.pubkey_map.foldl
    (fun acc kv => acc ++ (kv.2.to_config_string)) buf
  buf ++ "errno=0\n\n"

/-- Handling one framed command (the `match command` at lines 125-143):
the result is the state after handling (the handler only holds an
immutable borrow), the update-event queue after handling, and the
response string. -/
def handleCommand (s : State) (queue : List UpdateEvent) :
    Command → State × List UpdateEvent × String
  | .Set _version items => (s, enqueueAll queue items, setReply)
  | .Get _version => (s, queue, getResponse s)

/-! ### Specification-side decompositions and concrete instances -/

/-- Specification-side reading of the `Get` response: the
`private_key=<hex>` line, present exactly when the key is set. -/
def privateKeyLine (s : State) : String :=
  match s.interface_info.private_key with
  | some k => "private_key=" ++ hexEncode k ++ "\n"
  | none => ""

/-- Specification-side reading of the `Get` response: one configuration
block per registered peer, in map order. -/
def peerBlocks (s : State) : String :=
  String.join (s.pubkey_map.map (fun kv => kv.2.to_config_string))

/-- A peer is registered in all three index structures of a state:
pubkey map, session-index map, and the prefix table of each allowed-IP
prefix's family. -/
def peerFullyIndexed (peer : Peer) (st : State) : Prop :=
  peer.info.pub_key ∈ alKeys st.pubkey_map ∧
  peer.index ∈ alKeys st.index_map ∧
  ∀ am ∈ peer.info.allowed_ips,
    (∀ a, am.1 = IpAddr.V4 a → (a, am.2) ∈ alKeys st.ip4_map) ∧
    (∀ a, am.1 = IpAddr.V6 a → (a, am.2) ∈ alKeys st.ip6_map)

/-- The state component of a processing result, when it succeeded. -/
def resultState (r : Except PanicState (State × List (Endpoint × Bytes))) :
    Option State :=
  r.toOption.map Prod.fst

/-- A concrete negotiator instance for evaluating the embedding on
closed inputs. -/
def negTriv : Negotiator :=
  ⟨fun _ _ pk => (pk ++ [7], 42)⟩

/-- A concrete registered peer. -/
def oldPeer : Peer :=
  { info := { pub_key := [1], psk := some [2], endpoint := some 5,
              allowed_ips := [(IpAddr.V4 10, 32)] },
    handshake_packet := [9], index := 7 }

/-- A concrete state with `oldPeer` registered in all indices and a
private key set. -/
def dupState : State :=
  { pubkey_map := [([1], oldPeer)], index_map := [(7, oldPeer)],
    ip4_map := [((10, 32), oldPeer)], ip6_map := [],
    interface_info := { private_key := some [3], listen_port := none } }

/-- Concrete peer info whose public key and allowed-IP prefix collide
with `oldPeer`. -/
def dupInfo : PeerInfo :=
  { pub_key := [1], psk := some [4], endpoint := some 5,
    allowed_ips := [(IpAddr.V4 10, 32)] }

/-- A concrete state with a private key set and no peers. -/
def keyState : State :=
  { State.initial with
    interface_info := { private_key := some [3], listen_port := none } }

/-- Concrete peer info carrying no pre-shared key. -/
def infoNoPsk : PeerInfo :=
  { pub_key := [1], psk := none, endpoint := some 5, allowed_ips := [] }

/-- Concrete peer info carrying no endpoint. -/
def infoNoEp : PeerInfo :=
  { pub_key := [1], psk := some [4], endpoint := none,
    allowed_ips := [(IpAddr.V4 10, 32), (IpAddr.V6 20, 64)] }

/-- A concrete state whose private key is byte `0xab`. -/
def getState : State :=
  { State.initial with
    interface_info := { private_key := some [171], listen_port := none } }

/-- The concrete peer built by the initiator path on `dupInfo`. -/
def newPeer : Peer := buildInitiatorPeer negTriv [3] [4] dupInfo

/-- The concrete state at the endpoint-unwrap panic when `infoNoEp` is
processed against `keyState`. -/
def midNoEp : State :=
  (runOps ⟨keyState, []⟩
    (insertOps (buildInitiatorPeer negTriv [3] [4] infoNoEp))).state

/-! ## Helper lemmas -/

theorem strFoldl_append (l : List String) (a b : String) :
    l.foldl (fun r s => r ++ s) (a ++ b) = a ++ l.foldl (fun r s => r ++ s) b := by
  induction l generalizing b with
  | nil => simp
  | cons hd tl ih =>
      simp only [List.foldl_cons]
      rw [String.append_assoc, ih]

theorem strJoin_cons (x : String) (l : List String) :
    String.join (x :: l) = x ++ String.join l := by
  simp only [String.join, List.foldl_cons, String.empty_append]
  calc l.foldl (fun r s => r ++ s) x
      = l.foldl (fun r s => r ++ s) (x ++ "") := by rw [String.append_empty]
    _ = x ++ l.foldl (fun r s => r ++ s) "" := strFoldl_append l x ""

theorem strFoldl_accum {α : Type} (f : α → String) (l : List α) (init : String) :
    l.foldl (fun acc a => acc ++ f a) init = init ++ String.join (l.map f) := by
  induction l generalizing init with
  | nil => simp [String.join, String.append_empty]
  | cons hd tl ih =>
      simp only [List.foldl_cons, List.map_cons]
      rw [ih, strJoin_cons, String.append_assoc]

theorem enqueueAll_eq_append (items queue : List UpdateEvent) :
    enqueueAll queue items = queue ++ items := by
  induction items generalizing queue with
  | nil => simp [enqueueAll]
  | cons hd tl ih =>
      simp only [enqueueAll, List.foldl_cons] at *
      rw [ih, List.concat_eq_append, List.append_assoc]
      rfl

theorem runOps_append (es : ExecState) (a b : List Op) :
    runOps es (a ++ b) = runOps (runOps es a) b := by
  simp [runOps, List.foldl_append]

theorem statesAfter_append (es : ExecState) (a b : List Op) :
    statesAfter es (a ++ b) = statesAfter es a ++ statesAfter (runOps es a) b := by
  induction a generalizing es with
  | nil => simp [statesAfter, runOps]
  | cons hd tl ih =>
      show applyOp es hd :: statesAfter (applyOp es hd) (tl ++ b)
          = applyOp es hd :: (statesAfter (applyOp es hd) tl
              ++ statesAfter (runOps (applyOp es hd) tl) b)
      rw [ih]

theorem applyOp_wire_not_send (es : ExecState) (op : Op)
    (h : op.isSend = false) : (applyOp es op).wire = es.wire := by
  cases op with
  | insertIp a m p => cases a <;> rfl
  | insertIndex i p => rfl
  | insertPubkey k p => rfl
  | sendUdp e pkt => simp [Op.isSend] at h

theorem statesAfter_wire_empty (ops : List Op)
    (h : ∀ op ∈ ops, op.isSend = false) (es : ExecState)
    (he : es.wire = []) : ∀ x ∈ statesAfter es ops, x.wire = [] := by
  induction ops generalizing es with
  | nil => intro x hx; simp [statesAfter] at hx
  | cons hd tl ih =>
      intro x hx
      have hw : (applyOp es hd).wire = [] := by
        rw [applyOp_wire_not_send es hd (h hd (by simp))]; exact he
      simp only [statesAfter, List.mem_cons] at hx
      rcases hx with rfl | hx
      · exact hw
      · exact ih (fun op hop => h op (by simp [hop])) _ hw x hx

theorem applyOp_index_mono {k : Nat} (es : ExecState) (op : Op)
    (h : k ∈ alKeys es.state.index_map) :
    k ∈ alKeys (applyOp es op).state.index_map := by
  cases op with
  | insertIp a m p => cases a <;> exact h
  | insertIndex i p => exact alKeys_insert_mono i p h
  | insertPubkey k' p => exact h
  | sendUdp e pkt => exact h

theorem applyOp_pubkey_mono {k : Bytes} (es : ExecState) (op : Op)
    (h : k ∈ alKeys es.state.pubkey_map) :
    k ∈ alKeys (applyOp es op).state.pubkey_map := by
  cases op with
  | insertIp a m p => cases a <;> exact h
  | insertIndex i p => exact h
  | insertPubkey k' p => exact alKeys_insert_mono k' p h
  | sendUdp e pkt => exact h

theorem applyOp_ip4_mono {k : Nat × Nat} (es : ExecState) (op : Op)
    (h : k ∈ alKeys es.state.ip4_map) :
    k ∈ alKeys (applyOp es op).state.ip4_map := by
  cases op with
  | insertIp a m p => cases a with
      | V4 a => exact alKeys_insert_mono (a, m) p h
      | V6 a => exact h
  | insertIndex i p => exact h
  | insertPubkey k' p => exact h
  | sendUdp e pkt => exact h

theorem applyOp_ip6_mono {k : Nat × Nat} (es : ExecState) (op : Op)
    (h : k ∈ alKeys es.state.ip6_map) :
    k ∈ alKeys (applyOp es op).state.ip6_map := by
  cases op with
  | insertIp a m p => cases a with
      | V4 a => exact h
      | V6 a => exact alKeys_insert_mono (a, m) p h
  | insertIndex i p => exact h
  | insertPubkey k' p => exact h
  | sendUdp e pkt => exact h

theorem runOps_index_mono {k : Nat} (ops : List Op) (es : ExecState)
    (h : k ∈ alKeys es.state.index_map) :
    k ∈ alKeys (runOps es ops).state.index_map := by
  induction ops generalizing es with
  | nil => exact h
  | cons hd tl ih => exact ih (applyOp es hd) (applyOp_index_mono es hd h)

theorem runOps_pubkey_mono {k : Bytes} (ops : List Op) (es : ExecState)
    (h : k ∈ alKeys es.state.pubkey_map) :
    k ∈ alKeys (runOps es ops).state.pubkey_map := by
  induction ops generalizing es with
  | nil => exact h
  | cons hd tl ih => exact ih (applyOp es hd) (applyOp_pubkey_mono es hd h)

theorem runOps_ip4_mono {k : Nat × Nat} (ops : List Op) (es : ExecState)
    (h : k ∈ alKeys es.state.ip4_map) :
    k ∈ alKeys (runOps es ops).state.ip4_map := by
  induction ops generalizing es with
  | nil => exact h
  | cons hd tl ih => exact ih (applyOp es hd) (applyOp_ip4_mono es hd h)

theorem runOps_ip6_mono {k : Nat × Nat} (ops : List Op) (es : ExecState)
    (h : k ∈ alKeys es.state.ip6_map) :
    k ∈ alKeys (runOps es ops).state.ip6_map := by
  induction ops generalizing es with
  | nil => exact h
  | cons hd tl ih => exact ih (applyOp es hd) (applyOp_ip6_mono es hd h)

theorem insertOps_no_send (peer : Peer) :
    ∀ op ∈ insertOps peer, op.isSend = false := by
  intro op hop
  rw [insertOps, ipOps] at hop
  rcases List.mem_append.mp hop with hop | hop
  · rcases List.mem_map.mp hop with ⟨am, _, rfl⟩
    rfl
  · simp only [List.mem_cons, List.not_mem_nil, or_false] at hop
    rcases hop with rfl | rfl <;> rfl

theorem runOps_insertOps_index (es : ExecState) (peer : Peer) :
    peer.index ∈ alKeys (runOps es (insertOps peer)).state.index_map := by
  rw [insertOps, runOps_append]
  exact alKeys_insert_self peer.index peer _

theorem runOps_insertOps_pubkey (es : ExecState) (peer : Peer) :
    peer.info.pub_key ∈ alKeys (runOps es (insertOps peer)).state.pubkey_map := by
  rw [insertOps, runOps_append]
  exact alKeys_insert_self peer.info.pub_key peer _

theorem runOps_insertOps_pubkey_lookup (es : ExecState) (peer : Peer) :
    alLookup peer.info.pub_key (runOps es (insertOps peer)).state.pubkey_map
      = some peer := by
  rw [insertOps, runOps_append]
  exact alLookup_insert_self peer.info.pub_key peer _

theorem runOps_ipOps_mem (l : List (IpAddr × Nat)) (peer : Peer)
    (es : ExecState) : ∀ am ∈ l,
    (∀ a, am.1 = IpAddr.V4 a → (a, am.2) ∈
      alKeys (runOps es (l.map (fun am => Op.insertIp am.1 am.2 peer))).state.ip4_map) ∧
    (∀ a, am.1 = IpAddr.V6 a → (a, am.2) ∈
      alKeys (runOps es (l.map (fun am => Op.insertIp am.1 am.2 peer))).state.ip6_map) := by
  induction l generalizing es with
  | nil => intro am ham; exact absurd ham (List.not_mem_nil am)
  | cons hd tl ih =>
      intro am ham
      rcases List.mem_cons.mp ham with rfl | ham
      · constructor
        · intro a ha
          show (a, am.2) ∈ alKeys (runOps
            (applyOp es (Op.insertIp am.1 am.2 peer))
            (tl.map (fun am => Op.insertIp am.1 am.2 peer))).state.ip4_map
          apply runOps_ip4_mono
          rw [ha]
          exact alKeys_insert_self (a, am.2) peer _
        · intro a ha
          show (a, am.2) ∈ alKeys (runOps
            (applyOp es (Op.insertIp am.1 am.2 peer))
            (tl.map (fun am => Op.insertIp am.1 am.2 peer))).state.ip6_map
          apply runOps_ip6_mono
          rw [ha]
          exact alKeys_insert_self (a, am.2) peer _
      · exact ih (applyOp es (Op.insertIp hd.1 hd.2 peer)) am ham

theorem runOps_insertOps_ip (es : ExecState) (peer : Peer) :
    ∀ am ∈ peer.info.allowed_ips,
    (∀ a, am.1 = IpAddr.V4 a →
      (a, am.2) ∈ alKeys (runOps es (insertOps peer)).state.ip4_map) ∧
    (∀ a, am.1 = IpAddr.V6 a →
      (a, am.2) ∈ alKeys (runOps es (insertOps peer)).state.ip6_map) := by
  intro am ham
  rw [insertOps, runOps_append]
  constructor
  · intro a ha
    apply runOps_ip4_mono
    exact (runOps_ipOps_mem peer.info.allowed_ips peer es am ham).1 a ha
  · intro a ha
    apply runOps_ip6_mono
    exact (runOps_ipOps_mem peer.info.allowed_ips peer es am ham).2 a ha

theorem processEvent_updatePeer_eq (neg : Negotiator) (s : State)
    (info : PeerInfo) (sk psk : Bytes)
    (hsk : s.interface_info.private_key = some sk)
    (hpsk : info.psk = some psk) :
    processEvent neg s (UpdateEvent.UpdatePeer info) =
      (let peer := buildInitiatorPeer neg sk psk info
       let mid := runOps ⟨s, []⟩ (insertOps peer)
       match info.endpoint with
       | none =>
           Except.error ⟨"called Option::unwrap on a None value", mid.state⟩
       | some ep =>
           let fin := runOps mid [Op.sendUdp ep peer.handshake_packet]
           Except.ok (fin.state, fin.wire)) := by
  simp [processEvent, hsk, hpsk]

theorem processEvent_updatePeer_some_ep (neg : Negotiator) (s : State)
    (info : PeerInfo) (sk psk : Bytes) (ep : Endpoint)
    (hsk : s.interface_info.private_key = some sk)
    (hpsk : info.psk = some psk) (hep : info.endpoint = some ep) :
    processEvent neg s (UpdateEvent.UpdatePeer info) =
      Except.ok
        ((runOps ⟨s, []⟩ (insertOps (buildInitiatorPeer neg sk psk info))).state,
         (runOps ⟨s, []⟩ (insertOps (buildInitiatorPeer neg sk psk info))).wire
           ++ [(ep, (buildInitiatorPeer neg sk psk info).handshake_packet)]) := by
  rw [processEvent_updatePeer_eq neg s info sk psk hsk hpsk, hep]
  rfl

/-! ## Claim theorems: virtual-device codec -/

/-- C6: encoding for the virtual-device stream prepends exactly the fixed
4-byte address-family marker ahead of the unmodified payload, and decoding
an encoded frame strips exactly the first 4 bytes, so decode after encode
returns the original payload. -/
theorem utun_codec_roundtrip (msg buf : Bytes) :
    vecUtunEncode msg buf = buf ++ (afMarker ++ msg) ∧
    afMarker.length = 4 ∧
    vecUtunDecode (vecUtunEncode msg []) = some msg := by
  refine ⟨by simp [vecUtunEncode, List.append_assoc], rfl, ?_⟩
  have hlen : 4 ≤ (vecUtunEncode msg []).length := by
    simp [vecUtunEncode, afMarker]
  rw [vecUtunDecode, if_pos hlen]
  simp [vecUtunEncode, afMarker]

/-- C10: the decode operation is partial: a buffer of length at least 4
yields the suffix starting at byte 4 (possibly empty); a shorter buffer
panics (out-of-bounds index), modelled as `none`. -/
theorem utun_decode_cases (buf : Bytes) :
    (4 ≤ buf.length → vecUtunDecode buf = some (buf.drop 4)) ∧
    (buf.length < 4 → vecUtunDecode buf = none) := by
  constructor
  · intro h
    rw [vecUtunDecode, if_pos h]
  · intro h
    rw [vecUtunDecode, if_neg (by omega)]

/-- Witness for C10 at concrete buffers of length 5 and 2. -/
theorem utun_decode_cases_witness :
    vecUtunDecode [0, 0, 0, 2, 7] = some [7] ∧ vecUtunDecode [0, 0] = none :=
  ⟨(utun_decode_cases [0, 0, 0, 2, 7]).1 (by decide),
   (utun_decode_cases [0, 0]).2 (by decide)⟩

/-! ## Claim theorems: control channel -/

/-- C5: the `Get` response is the `private_key=<hex>` line exactly when
the private key is set, followed by one configuration block per
registered peer, terminated by an `errno=0` line and a blank line. -/
theorem get_response_shape (s : State) :
    getResponse s = (privateKeyLine s ++ peerBlocks s) ++ "errno=0\n\n" ∧
    (privateKeyLine s = "" ↔ s.interface_info.private_key = none) ∧
    (∀ k, s.interface_info.private_key = some k →
      privateKeyLine s = "private_key=" ++ hexEncode k ++ "\n") ∧
    ∃ t, getResponse s = t ++ "errno=0\n\n" := by
  have hshape :
      getResponse s = (privateKeyLine s ++ peerBlocks s) ++ "errno=0\n\n" := by
    cases hpk : s.interface_info.private_key with
    | none =>
        simp [getResponse, privateKeyLine, peerBlocks, hpk,
          strFoldl_accum (fun kv : Bytes × Peer => kv.2.to_config_string),
          String.empty_append]
    | some k =>
        simp [getResponse, privateKeyLine, peerBlocks, hpk,
          strFoldl_accum (fun kv : Bytes × Peer => kv.2.to_config_string),
          String.empty_append]
  refine ⟨hshape, ?_, ?_, ⟨privateKeyLine s ++ peerBlocks s, hshape⟩⟩
  · constructor
    · intro h
      cases hpk : s.interface_info.private_key with
      | none => rfl
      | some k =>
          exfalso
          rw [privateKeyLine, hpk] at h
          have hd := congrArg String.data h
          rw [String.data_append] at hd
          have hne : ("\n" : String).data ≠ [] := by decide
          simp only [List.append_eq_nil] at hd
          exact hne hd.2
    · intro h
      rw [privateKeyLine, h]
  · intro k hk
    rw [privateKeyLine, hk]

/-- Witness for C5 at a concrete state whose private key is the single
byte `0xab`. -/
theorem get_response_shape_witness :
    privateKeyLine getState = "private_key=" ++ hexEncode [171] ++ "\n" :=
  (get_response_shape getState).2.2.1 [171] rfl

/-- C7: handling a `Get` command leaves the routing state and the event
queue unchanged, and two consecutive `Get` commands with no intervening
mutation produce identical response strings. -/
theorem get_command_pure (s : State) (q : List UpdateEvent) (v1 v2 : Nat) :
    handleCommand s q (Command.Get v1) = (s, q, getResponse s) ∧
    (handleCommand (handleCommand s q (Command.Get v1)).1
        (handleCommand s q (Command.Get v1)).2.1 (Command.Get v2)).2.2 =
      (handleCommand s q (Command.Get v1)).2.2 :=
  ⟨rfl, rfl⟩

/-- C8: handling a `Set` command enqueues every item, one at a time and
in order, onto the update-event queue, leaves the state unchanged, and
replies with the fixed success trailer independent of the items and the
state. -/
theorem set_command_fixed_reply (s : State) (q : List UpdateEvent)
    (v : Nat) (items : List UpdateEvent) :
    handleCommand s q (Command.Set v items) =
      (s, q ++ items, "errno=0\nerrno=0\n\n") ∧
    enqueueAll q items = q ++ items := by
  refine ⟨?_, enqueueAll_eq_append items q⟩
  show (s, enqueueAll q items, setReply) = _
  rw [enqueueAll_eq_append items q]
  rfl

/-! ## Claim theorems: update-event processing -/

/-- C2: for an `UpdatePeer` event that is processed to completion, the
processing is exactly the run of `updatePeerOps`, and in every state of
that run in which a datagram has been handed to the UDP send path, the
peer's session index is already present in the session-index map: the
index is installed strictly before the handshake initiation is sent. -/
theorem handshake_index_before_send (neg : Negotiator) (s : State)
    (info : PeerInfo) (sk psk : Bytes) (ep : Endpoint)
    (hsk : s.interface_info.private_key = some sk)
    (hpsk : info.psk = some psk) (hep : info.endpoint = some ep) :
    processEvent neg s (UpdateEvent.UpdatePeer info) =
      (let fin := runOps ⟨s, []⟩
        (updatePeerOps (buildInitiatorPeer neg sk psk info) ep)
       Except.ok (fin.state, fin.wire)) ∧
    ∀ es ∈ reachableStates ⟨s, []⟩
        (updatePeerOps (buildInitiatorPeer neg sk psk info) ep),
      es.wire ≠ [] →
        (buildInitiatorPeer neg sk psk info).index ∈ alKeys es.state.index_map := by
  constructor
  · rw [processEvent_updatePeer_eq neg s info sk psk hsk hpsk, hep,
      updatePeerOps, runOps_append]
  · intro es hmem hwire
    rw [reachableStates] at hmem
    rcases List.mem_cons.mp hmem with rfl | hmem
    · exact absurd rfl hwire
    · rw [updatePeerOps, statesAfter_append] at hmem
      rcases List.mem_append.mp hmem with hmem | hmem
      · exact absurd
          (statesAfter_wire_empty _
            (insertOps_no_send (buildInitiatorPeer neg sk psk info))
            ⟨s, []⟩ rfl es hmem) hwire
      · simp only [statesAfter, List.mem_cons, List.not_mem_nil,
          or_false] at hmem
        rw [hmem]
        exact runOps_insertOps_index ⟨s, []⟩ (buildInitiatorPeer neg sk psk info)

/-- Witness for C2: a concrete completing `UpdatePeer` run, evaluated at
its final state, on which the wire is nonempty and the index is in the
map. -/
theorem handshake_index_before_send_witness :
    processEvent negTriv keyState (UpdateEvent.UpdatePeer dupInfo) =
      (let fin := runOps ⟨keyState, []⟩ (updatePeerOps newPeer 5)
       Except.ok (fin.state, fin.wire)) ∧
    newPeer.index ∈
      alKeys (runOps ⟨keyState, []⟩ (updatePeerOps newPeer 5)).state.index_map :=
  ⟨(handshake_index_before_send negTriv keyState dupInfo [3] [4] 5
      rfl rfl rfl).1,
   (handshake_index_before_send negTriv keyState dupInfo [3] [4] 5
      rfl rfl rfl).2
     (runOps ⟨keyState, []⟩ (updatePeerOps newPeer 5)) (by decide) (by decide)⟩

/-- C3: an `UpdatePeer` event processed while the private key is unset
panics with "no private key!" leaving the state unchanged; with the key
set but no pre-shared key it panics with "no psk!" leaving the state
unchanged; with both present, no processing failure is one of those two
panics. -/
theorem update_peer_key_requirements (neg : Negotiator) (s : State)
    (info : PeerInfo) :
    (s.interface_info.private_key = none →
      processEvent neg s (UpdateEvent.UpdatePeer info) =
        Except.error ⟨"no private key!", s⟩) ∧
    (∀ sk, s.interface_info.private_key = some sk → info.psk = none →
      processEvent neg s (UpdateEvent.UpdatePeer info) =
        Except.error ⟨"no psk!", s⟩) ∧
    (∀ sk psk, s.interface_info.private_key = some sk →
      info.psk = some psk →
      ∀ p, processEvent neg s (UpdateEvent.UpdatePeer info) = Except.error p →
        p.msg ≠ "no private key!" ∧ p.msg ≠ "no psk!") := by
  refine ⟨?_, ?_, ?_⟩
  · intro h
    simp [processEvent, h]
  · intro sk hsk hpsk
    simp [processEvent, hsk, hpsk]
  · intro sk psk hsk hpsk p hp
    rw [processEvent_updatePeer_eq neg s info sk psk hsk hpsk] at hp
    cases hep : info.endpoint with
    | none =>
        rw [hep] at hp
        injection hp with hp
        refine ⟨?_, ?_⟩
        · rw [← hp]
          show ("called Option::unwrap on a None value" : String) ≠
            "no private key!"
          decide
        · rw [← hp]
          show ("called Option::unwrap on a None value" : String) ≠ "no psk!"
          decide
    | some ep =>
        rw [hep] at hp
        exact absurd hp (by simp)

/-- Witness for C3: the three branches evaluated on concrete states and
peer infos. -/
theorem update_peer_key_requirements_witness :
    processEvent negTriv State.initial (UpdateEvent.UpdatePeer dupInfo) =
      Except.error ⟨"no private key!", State.initial⟩ ∧
    processEvent negTriv keyState (UpdateEvent.UpdatePeer infoNoPsk) =
      Except.error ⟨"no psk!", keyState⟩ ∧
    ((⟨"called Option::unwrap on a None value", midNoEp⟩ : PanicState).msg ≠
        "no private key!" ∧
      (⟨"called Option::unwrap on a None value", midNoEp⟩ : PanicState).msg ≠
        "no psk!") :=
  ⟨(update_peer_key_requirements negTriv State.initial dupInfo).1 rfl,
   (update_peer_key_requirements negTriv keyState infoNoPsk).2.1 [3] rfl rfl,
   (update_peer_key_requirements negTriv keyState infoNoEp).2.2 [3] [4]
     rfl rfl ⟨"called Option::unwrap on a None value", midNoEp⟩ rfl⟩

/-- C1 counterexample: with `oldPeer` already registered under public
key `[1]` and owning the prefix `(10, 32)`, an `UpdatePeer` event with
the same public key and the same prefix does not fail: it succeeds and
mutates the index structures. -/
theorem update_peer_conflict_counterexample :
    [1] ∈ alKeys dupState.pubkey_map ∧
    (IpAddr.V4 10, 32) ∈ dupInfo.allowed_ips ∧
    (processEvent negTriv dupState (UpdateEvent.UpdatePeer dupInfo)).isOk
      = true ∧
    resultState (processEvent negTriv dupState (UpdateEvent.UpdatePeer dupInfo))
      ≠ some dupState := by
  decide

/-- C1 amended: processing an `UpdatePeer` event performs no conflict
check at all: whatever the current state (in particular when the public
key already exists or an allowed-IP prefix already belongs to another
peer), a completing event succeeds and the new peer replaces the
pubkey-map binding of its key. -/
theorem update_peer_no_conflict_check (neg : Negotiator) (s : State)
    (info : PeerInfo) (sk psk : Bytes) (ep : Endpoint)
    (hsk : s.interface_info.private_key = some sk)
    (hpsk : info.psk = some psk) (hep : info.endpoint = some ep) :
    ∃ w, processEvent neg s (UpdateEvent.UpdatePeer info) =
        Except.ok
          ((runOps ⟨s, []⟩ (insertOps (buildInitiatorPeer neg sk psk info))).state,
           w) ∧
      alLookup info.pub_key
          (runOps ⟨s, []⟩
            (insertOps (buildInitiatorPeer neg sk psk info))).state.pubkey_map
        = some (buildInitiatorPeer neg sk psk info) := by
  refine ⟨(runOps ⟨s, []⟩ (insertOps (buildInitiatorPeer neg sk psk info))).wire
      ++ [(ep, (buildInitiatorPeer neg sk psk info).handshake_packet)],
    processEvent_updatePeer_some_ep neg s info sk psk ep hsk hpsk hep,
    runOps_insertOps_pubkey_lookup ⟨s, []⟩ (buildInitiatorPeer neg sk psk info)⟩

/-- Witness for C1 amended, at the concrete conflicting configuration of
the counterexample. -/
theorem update_peer_no_conflict_check_witness :
    ∃ w, processEvent negTriv dupState (UpdateEvent.UpdatePeer dupInfo) =
        Except.ok ((runOps ⟨dupState, []⟩ (insertOps newPeer)).state, w) ∧
      alLookup dupInfo.pub_key
          (runOps ⟨dupState, []⟩ (insertOps newPeer)).state.pubkey_map
        = some newPeer :=
  update_peer_no_conflict_check negTriv dupState dupInfo [3] [4] 5 rfl rfl rfl

/-- C4 counterexample: an update event of an unrecognized kind does not
no-op: the catch-all arm panics (`unimplemented!()`), so processing
fails rather than continuing. -/
theorem unknown_event_counterexample :
    (processEvent negTriv State.initial UpdateEvent.Other).isOk = false := by
  decide

/-- C4 amended: for every update event whose kind is not `PrivateKey`,
`ListenPort` or `UpdatePeer`, the event consumer hits `unimplemented!()`:
it panics with "not implemented"; the state is unchanged at the panic,
but processing fails instead of silently continuing. -/
theorem unknown_event_panics (neg : Negotiator) (s : State) :
    processEvent neg s UpdateEvent.Other =
      Except.error ⟨"not implemented", s⟩ := rfl

/-- C9: with the private key and the pre-shared key present, an
`UpdatePeer` event whose peer info carries no endpoint panics (unwrap of
`None`) only after the peer has been inserted into all three index
structures; when the endpoint is present the processing succeeds, so the
failure branch is unreachable. -/
theorem update_peer_endpoint_required (neg : Negotiator) (s : State)
    (info : PeerInfo) (sk psk : Bytes)
    (hsk : s.interface_info.private_key = some sk)
    (hpsk : info.psk = some psk) :
    (info.endpoint = none →
      ∃ p, processEvent neg s (UpdateEvent.UpdatePeer info) = Except.error p ∧
        peerFullyIndexed (buildInitiatorPeer neg sk psk info) p.state) ∧
    (∀ ep, info.endpoint = some ep →
      ∃ r, processEvent neg s (UpdateEvent.UpdatePeer info) = Except.ok r) := by
  constructor
  · intro hep
    refine ⟨⟨"called Option::unwrap on a None value",
      (runOps ⟨s, []⟩ (insertOps (buildInitiatorPeer neg sk psk info))).state⟩,
      ?_, ?_, ?_, ?_⟩
    · rw [processEvent_updatePeer_eq neg s info sk psk hsk hpsk, hep]
    · exact runOps_insertOps_pubkey ⟨s, []⟩ (buildInitiatorPeer neg sk psk info)
    · exact runOps_insertOps_index ⟨s, []⟩ (buildInitiatorPeer neg sk psk info)
    · exact runOps_insertOps_ip ⟨s, []⟩ (buildInitiatorPeer neg sk psk info)
  · intro ep hep
    exact ⟨_, processEvent_updatePeer_some_ep neg s info sk psk ep hsk hpsk hep⟩

/-- Witness for C9: the endpoint-free info panics with the peer fully
indexed; the endpoint-carrying one succeeds. -/
theorem update_peer_endpoint_required_witness :
    (∃ p, processEvent negTriv keyState (UpdateEvent.UpdatePeer infoNoEp) =
        Except.error p ∧
      peerFullyIndexed (buildInitiatorPeer negTriv [3] [4] infoNoEp) p.state) ∧
    (∃ r, processEvent negTriv dupState (UpdateEvent.UpdatePeer dupInfo) =
      Except.ok r) :=
  ⟨(update_peer_endpoint_required negTriv keyState infoNoEp [3] [4]
      rfl rfl).1 rfl,
   (update_peer_endpoint_required negTriv dupState dupInfo [3] [4]
      rfl rfl).2 5 rfl⟩

end WireguardRs
